import Mathlib

/-!
Shallow embedding of `src/advanced-vector/vector.h`: the RawMemory buffer
manager and the Vector dynamic array built on top of it.

Memory blocks are abstracted as identities (`Option Nat`: `none` models a
null pointer, `some id` a distinct allocated block).  A vector's live
elements are a Lean list (the constructed objects at indices
`[0, size_)`); the capacity is carried separately, exactly as `size_` and
`data_.Capacity()` are separate in the source.  Element construction that
may throw is modelled by explicit failure-plan parameters: a plan names
the construction call that throws (all earlier ones succeed), and the
model then executes the same cleanup the source performs, reporting the
state of the original buffer (live or moved-from cells), the new-block
slots still constructed when the exception escapes (leaks), and the
number of destroy calls applied to slots that held no object
(double-destruction).
-/

/-- Model of `RawMemory<T>`: `buffer` is the block identity (`none` =
`nullptr`), `capacity` the element count.  Mirrors members `buffer_` and
`capacity_`. -/
structure RawMem where
  buffer : Option Nat
  capacity : Nat
deriving DecidableEq, Repr

/-- Mirrors `RawMemory(RawMemory&& other)`: the destination takes
`other`'s buffer and capacity; `other` is left with `nullptr` and 0.
Returns (constructed destination, source after the move). -/
def rawMoveCtor (other : RawMem) : RawMem × RawMem :=
  (⟨other.buffer, other.capacity⟩, ⟨none, 0⟩)

/-- Mirrors `RawMemory::Swap`: exchanges buffer and capacity. -/
def rawSwap (a b : RawMem) : RawMem × RawMem :=
  (⟨b.buffer, b.capacity⟩, ⟨a.buffer, a.capacity⟩)

/-- Mirrors `RawMemory::operator=(RawMemory&& rhs)`: `if (this != &rhs)
Swap(rhs);`.  The `same` flag models the pointer comparison `this == &rhs`.
Returns (destination after, source after). -/
def rawMoveAssign (dst rhs : RawMem) (same : Bool) : RawMem × RawMem :=
  if same then (dst, rhs) else rawSwap dst rhs

/-- Model of `Vector<T>`: `elems` is the list of live constructed
elements (`data_[0] .. data_[size_-1]`), `cap` is `data_.Capacity()`.
The size `size_` is `elems.length`. -/
structure Vec (α : Type) where
  elems : List α
  cap : Nat
deriving DecidableEq, Repr

namespace Vec

/-- Mirrors `Vector::Size`. -/
def size (v : Vec α) : Nat := v.elems.length

/-- Mirrors `Vector::Capacity`. -/
def capacity (v : Vec α) : Nat := v.cap

end Vec

/-- The container invariant `0 <= size_ <= Capacity()` (the lower bound is
inherent to `Nat`). -/
def WF (v : Vec α) : Prop := v.size ≤ v.cap

instance (v : Vec α) : Decidable (WF v) := by unfold WF; infer_instance

/-- New capacity chosen on implicit growth: both `EmplaceBack` and
`Emplace` allocate `RawMemory<T>(size_ == 0 ? 1 : size_ * 2)`. -/
def growCap (sz : Nat) : Nat := if sz = 0 then 1 else sz * 2

/-- Mirrors `Vector()`: default construction, empty, zero capacity. -/
def vecDefault : Vec α := ⟨[], 0⟩

/-- Mirrors `explicit Vector(size_t size)`: capacity `size`, and `size`
value-constructed elements; `d` models the value-initialized `T()`. -/
def vecOfSize (n : Nat) (d : α) : Vec α := ⟨List.replicate n d, n⟩

/-- Mirrors `Vector(const Vector& other)`: capacity `other.size_`, the
elements copied in order. -/
def vecCopyCtor (other : Vec α) : Vec α := ⟨other.elems, other.elems.length⟩

/-- Mirrors `Vector(Vector&& other)`: takes `other`'s storage (RawMemory
move construction nulls the source) and exchanges `other.size_` with 0.
Returns (constructed vector, source after the move). -/
def vecMoveCtor (other : Vec α) : Vec α × Vec α :=
  (⟨other.elems, other.cap⟩, ⟨[], 0⟩)

/-- Mirrors `Vector::Swap`: swaps storage and size. -/
def vecSwap (a b : Vec α) : Vec α × Vec α := (b, a)

/-- Mirrors `Vector::CopyAssignNoRealloc(rhs)` (called only when
`rhs.size_ <= Capacity()`): `std::copy` overwrites the common prefix,
then either the surplus tail `[rhs.size_, size_)` is destroyed or `rhs`'s
suffix `[size_, rhs.size_)` is copy-constructed into the tail; finally
`size_ = rhs.size_`. -/
def copyAssignNoRealloc (dst rhs : Vec α) : Vec α :=
  let common := min dst.elems.length rhs.elems.length
  let afterPrefixCopy := rhs.elems.take common ++ dst.elems.drop common
  if dst.elems.length > rhs.elems.length then
    ⟨afterPrefixCopy.take rhs.elems.length, dst.cap⟩
  else
    ⟨afterPrefixCopy ++ rhs.elems.drop dst.elems.length, dst.cap⟩

/-- Mirrors `Vector::operator=(const Vector& rhs)`: the `same` flag models
`this == &rhs`; if `rhs.size_ > Capacity()` a temporary copy of `rhs` is
built (its capacity is `rhs.size_`, per the copy constructor) and swapped
in, otherwise `CopyAssignNoRealloc`. -/
def vecCopyAssignOp (dst rhs : Vec α) (same : Bool) : Vec α :=
  if same then dst
  else if rhs.elems.length > dst.cap then vecCopyCtor rhs
  else copyAssignNoRealloc dst rhs

/-- Mirrors `Vector::operator=(Vector&& rhs)`: `if (this != &rhs)
Swap(rhs);`.  Returns (destination after, rhs after). -/
def vecMoveAssignOp (dst rhs : Vec α) (same : Bool) : Vec α × Vec α :=
  if same then (dst, rhs) else vecSwap dst rhs

/-- Mirrors `Vector::Reserve` in the success case (no element
construction fails): no-op when `new_capacity <= Capacity()`, otherwise
the elements are transferred in order into a block of exactly
`new_capacity`. -/
def reserveV (v : Vec α) (newCapacity : Nat) : Vec α :=
  if newCapacity ≤ v.cap then v else ⟨v.elems, newCapacity⟩

/-- Mirrors `Vector::Resize`: growing reserves then value-constructs the
tail (`d` models `T()`); shrinking destroys the elements beyond
`new_size`; `size_ = new_size` either way. -/
def resizeV (v : Vec α) (newSize : Nat) (d : α) : Vec α :=
  if newSize > v.elems.length then
    let r := reserveV v newSize
    ⟨r.elems ++ List.replicate (newSize - v.elems.length) d, r.cap⟩
  else
    ⟨v.elems.take newSize, v.cap⟩

/-- Mirrors `Vector::EmplaceBack` in the success case: on a full vector
the element goes into slot `size_` of a fresh block of `growCap size_`
and the old elements are transferred below it; otherwise it is
constructed in place at slot `size_`. -/
def pushBackV (v : Vec α) (x : α) : Vec α :=
  if v.elems.length = v.cap then
    ⟨v.elems ++ [x], growCap v.elems.length⟩
  else
    ⟨v.elems ++ [x], v.cap⟩

/-- Mirrors `Vector::PopBack`: destroys the last element when non-empty,
no-op when empty. -/
def popBackV (v : Vec α) : Vec α :=
  if v.elems.length > 0 then ⟨v.elems.dropLast, v.cap⟩ else v

/-- The assertion at the head of `Vector::Emplace` and `Vector::Erase`:
`assert(pos >= begin() && pos < end())`.  With the position expressed as
index `i` from `begin()`, `pos >= begin()` is `0 <= i` (automatic for
`Nat`) and `pos < end()` is `i < size_`. -/
def posAssertHolds (v : Vec α) (i : Nat) : Bool := decide (i < v.elems.length)

/-- Mirrors `Vector::Emplace` in the success case, position given as
index `i`; returns the vector and the returned iterator's index.  Full
vector: all elements go to a fresh block, prefix below the new element,
suffix above.  Otherwise, in place: when non-empty, the last element is
duplicated into slot `size_`, `[i, size_-1)` is shifted right one slot by
`std::move_backward`, and the temporary is move-assigned into slot `i`
(net effect: the splice below); when empty, the element is constructed
directly at slot `i` (`i` must be 0: `data_ + index` with `index = 0`). -/
def emplaceV (v : Vec α) (i : Nat) (x : α) : Vec α × Nat :=
  if v.elems.length = v.cap then
    (⟨v.elems.take i ++ x :: v.elems.drop i, growCap v.elems.length⟩, i)
  else if v.elems.length ≠ 0 then
    (⟨v.elems.take i ++ x :: v.elems.drop i, v.cap⟩, i)
  else
    (⟨[x], v.cap⟩, i)

/-- Mirrors `Vector::Erase`, position given as index `i`:
`std::move(pos + 1, end(), pos)` shifts the elements after `i` one slot
left by move-assignment (net effect on the live range: the splice below),
`std::destroy_at(data_ + --size_)` drops the stale last slot.  Returns
the vector and the returned iterator's index (`nonconst_pos`, i.e. `i`). -/
def eraseV (v : Vec α) (i : Nat) : Vec α × Nat :=
  (⟨v.elems.take i ++ v.elems.drop (i + 1), v.cap⟩, i)

/-- State of one slot of the original buffer while elements are being
transferred out of it: still holding its constructed value, or left
moved-from by a completed move construction. -/
inductive Cell (α : Type) where
  | live (v : α)
  | movedFrom
deriving DecidableEq, Repr

/-- Cells of a buffer none of whose elements has been moved out. -/
def allLive (l : List α) : List (Cell α) := l.map Cell.live

/-- Cells of the original buffer after its first `k` elements have been
moved out (a move construction that throws leaves its source unchanged;
a completed one leaves it moved-from). -/
def movedOutUpTo (k : Nat) (l : List α) : List (Cell α) :=
  (l.take k).map (fun _ => Cell.movedFrom) ++ (l.drop k).map Cell.live

/-- Observation reported when an exception escapes a growth operation:
the original buffer's cells, the original capacity (`size_` is
`origCells.length`), the new-block slots still holding constructed
objects when the exception leaves (leaked elements, as slot/value pairs),
and the number of destroy calls applied to slots that held no object
(double-destruction). -/
structure ThrownState (α : Type) where
  origCells : List (Cell α)
  origCap : Nat
  newLive : List (Nat × α)
  badDestroys : Nat
deriving DecidableEq, Repr

/-- Effect of `std::destroy_n(new_data.GetAddress(), k)` on the list of
still-constructed new-block slots: slots below `k` are destroyed; destroy
calls that hit no constructed object are counted. -/
def destroyFirstN (k : Nat) (liveSlots : List (Nat × α)) : List (Nat × α) × Nat :=
  (liveSlots.filter (fun p => decide (k ≤ p.1)),
   k - (liveSlots.filter (fun p => decide (p.1 < k))).length)

/-- Mirrors `Vector::EmplaceBack` on a full vector (`size_ ==
Capacity()`) with explicit exception behavior.  `ntMove` and `copyC`
model `std::is_nothrow_move_constructible_v<T>` and
`std::is_copy_constructible_v<T>`.  The new element is constructed at
slot `size_` of the new block first, outside the try block (`failNew`
makes it throw: nothing has been constructed, the original buffer is
untouched, the fresh raw block is freed by its destructor).  The
relocation then uses move when `ntMove || !copyC` and copy otherwise
(`failReloc` names the transfer that throws, possible only when the
chosen transfer can throw): the transfer's own cleanup destroys what it
constructed, the catch destroys the new element at slot `size_`, and the
exception is rethrown; a move transfer leaves already-moved sources
moved-from, a copy transfer leaves the originals untouched. -/
def emplaceBackGrow (v : Vec α) (x : α) (ntMove copyC : Bool)
    (failNew : Bool) (failReloc : Option Nat) : Except (ThrownState α) (Vec α) :=
  let n := v.elems.length
  if failNew then
    .error ⟨allLive v.elems, v.cap, [], 0⟩
  else
    let useMove := ntMove || !copyC
    let relocCanThrow := if useMove then !ntMove else true
    match failReloc with
    | some i =>
      if i < n ∧ relocCanThrow then
        .error ⟨if useMove then movedOutUpTo i v.elems else allLive v.elems,
                v.cap, [], 0⟩
      else .ok ⟨v.elems ++ [x], growCap n⟩
    | none => .ok ⟨v.elems ++ [x], growCap n⟩

/-- Where the first exception occurs during the reallocating path of
`Vector::Emplace` (the element type's move construction may throw for
`preMove`/`postMove` to be reachable; the new element's construction may
always throw). -/
inductive EmplaceFail where
  | preMove (i : Nat)
  | newElem
  | postMove (j : Nat)
deriving DecidableEq, Repr

/-- Mirrors the reallocating path of `Vector::Emplace` (`size_ ==
Capacity()`), position given as index `idx`, with explicit exception
behavior.  The try block moves the prefix `[0, idx)` into new slots
`[0, idx)` with `std::uninitialized_move_n`, constructs the new element
at new slot `idx`, then moves the suffix `[idx, size_)` into new slots
`[idx+1, ...)`.  On a throw, the throwing uninitialized algorithm first
destroys the elements it itself constructed, then the catch runs
`std::destroy_n(new_data.GetAddress(), index)` — destroying exactly the
first `idx` slots, whatever they hold — and rethrows. -/
def emplaceGrow (v : Vec α) (idx : Nat) (x : α) (fail : Option EmplaceFail) :
    Except (ThrownState α) (Vec α) :=
  let n := v.elems.length
  let okResult : Except (ThrownState α) (Vec α) :=
    .ok ⟨v.elems.take idx ++ x :: v.elems.drop idx, growCap n⟩
  match fail with
  | none => okResult
  | some (.preMove i) =>
    if i < idx ∧ i < n then
      -- moves 0..i-1 completed, move i throws; uninitialized_move_n destroys
      -- the i slots it constructed, so no new-block slot holds an object when
      -- the catch destroys slots 0..idx-1.
      let (leak, bad) := destroyFirstN idx ([] : List (Nat × α))
      .error ⟨movedOutUpTo i v.elems, v.cap, leak, bad⟩
    else okResult
  | some .newElem =>
    if idx ≤ n then
      -- prefix fully moved into slots 0..idx-1; the new element's construction
      -- throws; the catch destroys slots 0..idx-1.
      let (leak, bad) := destroyFirstN idx (v.elems.take idx).enum
      .error ⟨movedOutUpTo idx v.elems, v.cap, leak, bad⟩
    else okResult
  | some (.postMove j) =>
    if idx ≤ n ∧ j < n - idx then
      -- prefix in slots 0..idx-1, new element at slot idx, suffix moves
      -- 0..j-1 completed into slots idx+1..idx+j; suffix move j throws;
      -- uninitialized_move_n destroys the j suffix slots it constructed; the
      -- catch destroys slots 0..idx-1 only.
      let (leak, bad) := destroyFirstN idx ((v.elems.take idx).enum ++ [(idx, x)])
      .error ⟨movedOutUpTo (idx + j) v.elems, v.cap, leak, bad⟩
    else okResult

/-- Mirrors `Vector::Reserve` with explicit exception behavior.  The
traits select the transfer exactly as the constexpr chain does: nothrow
move when `ntMove`, otherwise copy when `copyC`, otherwise
possibly-throwing move.  `failTransfer` names the transfer call that
throws (possible only when the chosen transfer can throw).  Reserve has
no try/catch: a throwing uninitialized algorithm destroys its own partial
constructions, the fresh raw block is freed by its destructor, and the
exception propagates before `destroy_n`/`Swap` run, so size and capacity
are unchanged; a copy transfer leaves the original elements untouched,
a throwing move transfer leaves already-moved sources moved-from. -/
def reserveGrow (v : Vec α) (newCapacity : Nat) (ntMove copyC : Bool)
    (failTransfer : Option Nat) : Except (ThrownState α) (Vec α) :=
  if newCapacity ≤ v.cap then .ok v
  else
    let n := v.elems.length
    let useMove := ntMove || !copyC
    match failTransfer with
    | some i =>
      if i < n ∧ !ntMove then
        .error ⟨if useMove then movedOutUpTo i v.elems else allLive v.elems,
                v.cap, [], 0⟩
      else .ok ⟨v.elems, newCapacity⟩
    | none => .ok ⟨v.elems, newCapacity⟩

/-- Mirrors `Vector::operator=(const Vector& rhs)` when `this != &rhs`,
with the element copies performed while building the temporary on the
reallocating path allowed to fail: `failCopy` names the element copy that
throws.  On failure the temporary's partially built contents are
destroyed as `tmp` unwinds and the exception propagates before
`Swap(tmp)` runs; the error carries the destination's (unchanged) state
at propagation.  The no-realloc path is modelled in its success case. -/
def copyAssignWithFail (dst rhs : Vec α) (failCopy : Option Nat) :
    Except (Vec α) (Vec α) :=
  if rhs.elems.length > dst.cap then
    match failCopy with
    | some i =>
      if i < rhs.elems.length then .error dst else .ok (vecCopyCtor rhs)
    | none => .ok (vecCopyCtor rhs)
  else .ok (copyAssignNoRealloc dst rhs)

/-- Net effect of `CopyAssignNoRealloc`: the destination ends up with
exactly `rhs`'s elements and its own capacity. -/
theorem copyAssignNoRealloc_spec (dst rhs : Vec α) :
    copyAssignNoRealloc dst rhs = ⟨rhs.elems, dst.cap⟩ := by
  simp only [copyAssignNoRealloc]
  split_ifs with h
  · have hc : min dst.elems.length rhs.elems.length = rhs.elems.length :=
      Nat.min_eq_right (Nat.le_of_lt h)
    rw [hc, List.take_length, List.take_append_of_le_length (le_refl _),
      List.take_length]
  · have hc : min dst.elems.length rhs.elems.length = dst.elems.length :=
      Nat.min_eq_left (Nat.le_of_not_lt h)
    rw [hc, List.drop_length, List.append_nil, List.take_append_drop]

/-- C9 counterexample: `RawMemory` move-assignment does not leave the
source null/zero — with destination `(block 1, capacity 2)` and source
`(block 2, capacity 3)`, after `dst = std::move(src)` the source holds the
destination's previous block and capacity 2. -/
theorem rawMoveAssign_source_not_nulled :
    (rawMoveAssign ⟨some 1, 2⟩ ⟨some 2, 3⟩ false).2.buffer ≠ none ∧
    (rawMoveAssign ⟨some 1, 2⟩ ⟨some 2, 3⟩ false).2.capacity ≠ 0 := by
  decide

/-- C9 (amended): move-construction transfers the block identity (no byte
copy) and leaves the source with a null address and zero capacity;
move-assignment (non-self) exchanges the two blocks, so the destination
takes the source's block and the source takes the destination's previous
block — null/zero only when the destination was empty. -/
theorem rawMove_ownership_transfer (m other : RawMem) :
    (rawMoveCtor other).1.buffer = other.buffer ∧
    (rawMoveCtor other).1.capacity = other.capacity ∧
    (rawMoveCtor other).2 = ⟨none, 0⟩ ∧
    rawMoveAssign m other false =
      (⟨other.buffer, other.capacity⟩, ⟨m.buffer, m.capacity⟩) :=
  ⟨rfl, rfl, rfl, rfl⟩

/-- C10: self-assignment — copy `v = v` and move `v = std::move(v)` —
leaves the vector entirely unchanged: both operators guard with
`if (this != &rhs)`, modelled by the `same` flag being true. -/
theorem self_assignment_unchanged (v : Vec α) :
    vecCopyAssignOp v v true = v ∧ vecMoveAssignOp v v true = (v, v) :=
  ⟨rfl, rfl⟩

/-- C3 counterexample: on an empty vector, the position `begin()`
(index 0) does not satisfy the stated precondition `pos` in
`[begin, end)` — the debug assertion `pos < end()` fails, since
`begin() == end()` when `size_ == 0`. -/
theorem emplace_empty_position_fails_assert :
    posAssertHolds (Vec.mk ([] : List Nat) 0) 0 = false := by decide

/-- C3 (amended): for an empty vector, position `begin()` violates the
stated precondition (the assertion `pos < end()` fires in a debug build);
with assertions disabled the code nevertheless handles it: the new
element is constructed at `begin`, the length becomes 1, and the returned
iterator designates the inserted element (index 0) — for any prior
capacity (capacity 0 takes the reallocating path, nonzero capacity the
empty in-place path). -/
theorem emplace_on_empty (c : Nat) (x : α) :
    (emplaceV (Vec.mk ([] : List α) c) 0 x).1.elems = [x] ∧
    (emplaceV (Vec.mk ([] : List α) c) 0 x).1.size = 1 ∧
    (emplaceV (Vec.mk ([] : List α) c) 0 x).2 = 0 := by
  simp only [emplaceV, Vec.size]
  split_ifs with h1 h2 <;> simp_all [growCap]

/-- C4: whenever an append or insert triggers implicit growth because the
vector is full (`size_ == Capacity()`), the capacity after the operation
equals `max(1, 2 * capacityBefore)`: the source allocates
`size_ == 0 ? 1 : size_ * 2`, and at the trigger point `size_` equals the
old capacity. -/
theorem growth_policy_doubling (v : Vec α) (x : α) (i : Nat)
    (hfull : v.size = v.cap) :
    (pushBackV v x).cap = max 1 (2 * v.cap) ∧
    ((emplaceV v i x).1).cap = max 1 (2 * v.cap) ∧
    growCap v.size = max 1 (2 * v.cap) := by
  have h : v.elems.length = v.cap := hfull
  refine ⟨?_, ?_, ?_⟩
  · unfold pushBackV
    rw [if_pos h]
    show growCap v.elems.length = _
    unfold growCap; split_ifs <;> omega
  · unfold emplaceV
    rw [if_pos h]
    show growCap v.elems.length = _
    unfold growCap; split_ifs <;> omega
  · show growCap v.elems.length = _
    unfold growCap; split_ifs <;> omega

/-- Witness for the growth-policy theorem at the full vector `[5]` with
capacity 1. -/
theorem growth_policy_doubling_witness :
    (Vec.mk ([5] : List Nat) 1).size = (Vec.mk ([5] : List Nat) 1).cap ∧
    ((pushBackV (Vec.mk ([5] : List Nat) 1) 7).cap = max 1 (2 * 1) ∧
     ((emplaceV (Vec.mk ([5] : List Nat) 1) 0 7).1).cap = max 1 (2 * 1) ∧
     growCap (Vec.mk ([5] : List Nat) 1).size = max 1 (2 * 1)) :=
  ⟨by decide, growth_policy_doubling (Vec.mk ([5] : List Nat) 1) 7 0 (by decide)⟩

/-- C7: Erase at a valid position `i` (within `[begin, end)`, matching
the assertion) yields size `n - 1` with the same capacity, keeps the
elements before `i` unchanged, shifts the elements after `i` down one
index, and returns an iterator to index `i` — which designates the
element that followed the erased one, or equals `end()` when the erased
element was last. -/
theorem erase_spec (v : Vec α) (i : Nat) (hi : i < v.size) :
    (eraseV v i).1.size = v.size - 1 ∧
    (eraseV v i).1.cap = v.cap ∧
    (∀ j, j < i → ((eraseV v i).1.elems)[j]? = v.elems[j]?) ∧
    (∀ j, i ≤ j → j < v.size - 1 → ((eraseV v i).1.elems)[j]? = v.elems[j + 1]?) ∧
    (eraseV v i).2 = i ∧
    (i < v.size - 1 → ((eraseV v i).1.elems)[(eraseV v i).2]? = v.elems[i + 1]?) ∧
    (i = v.size - 1 → (eraseV v i).2 = (eraseV v i).1.size) := by
  have hi' : i < v.elems.length := hi
  have htk : (v.elems.take i).length = i := by
    rw [List.length_take]; omega
  have hlen : ((eraseV v i).1).elems.length = v.elems.length - 1 := by
    simp only [eraseV, List.length_append, List.length_take, List.length_drop]
    omega
  have hbefore : ∀ j, j < i → ((eraseV v i).1.elems)[j]? = v.elems[j]? := by
    intro j hj
    simp only [eraseV]
    rw [List.getElem?_append, if_pos (by omega), List.getElem?_take, if_pos hj]
  have hafter : ∀ j, i ≤ j → j < v.size - 1 →
      ((eraseV v i).1.elems)[j]? = v.elems[j + 1]? := by
    intro j hj1 hj2
    simp only [eraseV]
    rw [List.getElem?_append, if_neg (by omega), List.getElem?_drop, htk]
    congr 1
    omega
  refine ⟨hlen, rfl, hbefore, hafter, rfl, fun hlt => ?_, fun heq => ?_⟩
  · exact hafter i (le_refl i) hlt
  · show i = (eraseV v i).1.elems.length
    rw [hlen]
    exact heq

/-- Witness for the erase theorem: erasing index 1 of `[10, 20, 30]`
(capacity 4). -/
theorem erase_spec_witness :
    1 < (Vec.mk ([10, 20, 30] : List Nat) 4).size ∧
    ((eraseV (Vec.mk ([10, 20, 30] : List Nat) 4) 1).1 = Vec.mk [10, 30] 4 ∧
     (eraseV (Vec.mk ([10, 20, 30] : List Nat) 4) 1).2 = 1) := by
  have h := erase_spec (Vec.mk ([10, 20, 30] : List Nat) 4) 1 (by decide)
  exact ⟨by decide, by decide, h.2.2.2.2.1⟩

/-- C6: every operation of the public interface leaves the container
satisfying `0 <= Size() <= Capacity()` (the lower bound is inherent to
`Nat`): default and sized construction, copy/move construction (both the
new vector and the moved-from source), copy/move assignment (self and
non-self), Swap (both sides), Reserve, Resize, PushBack/EmplaceBack,
Insert/Emplace, Erase, and PopBack. -/
theorem public_ops_preserve_invariant (a b : Vec α) (n newSize i : Nat) (x d : α)
    (ha : WF a) (hb : WF b) :
    WF (vecDefault : Vec α) ∧
    WF (vecOfSize n d) ∧
    WF (vecCopyCtor a) ∧
    WF (vecMoveCtor a).1 ∧ WF (vecMoveCtor a).2 ∧
    WF (vecCopyAssignOp a b true) ∧ WF (vecCopyAssignOp a b false) ∧
    WF (vecMoveAssignOp a b false).1 ∧ WF (vecMoveAssignOp a b false).2 ∧
    WF (vecSwap a b).1 ∧ WF (vecSwap a b).2 ∧
    WF (reserveV a n) ∧
    WF (resizeV a newSize d) ∧
    WF (pushBackV a x) ∧
    WF (emplaceV a i x).1 ∧
    WF (eraseV a i).1 ∧
    WF (popBackV a) := by
  have hwa : a.elems.length ≤ a.cap := ha
  have hwb : b.elems.length ≤ b.cap := hb
  have hgrow : ∀ m : Nat, m + 1 ≤ growCap m := by
    intro m; unfold growCap; split_ifs <;> omega
  refine ⟨?_, ?_, ?_, ?_, ?_, ?_, ?_, ?_, ?_, ?_, ?_, ?_, ?_, ?_, ?_, ?_, ?_⟩
  · exact Nat.le_refl 0
  · show (List.replicate n d).length ≤ n
    simp
  · exact Nat.le_refl _
  · exact hwa
  · exact Nat.le_refl 0
  · exact hwa
  · show WF (if b.elems.length > a.cap then vecCopyCtor b
             else copyAssignNoRealloc a b)
    split_ifs with h1
    · exact Nat.le_refl _
    · rw [copyAssignNoRealloc_spec]
      show b.elems.length ≤ a.cap
      omega
  · exact hwb
  · exact hwa
  · exact hwb
  · exact hwa
  · show WF (if n ≤ a.cap then a else ⟨a.elems, n⟩)
    split_ifs with h1
    · exact hwa
    · show a.elems.length ≤ n
      omega
  · simp only [WF, Vec.size, resizeV, reserveV]
    split_ifs with h1 h2
    all_goals try simp only [List.length_append, List.length_replicate,
      List.length_take]
    all_goals omega
  · simp only [WF, Vec.size, pushBackV]
    split_ifs with h1
    · have := hgrow a.elems.length
      simp only [List.length_append, List.length_cons, List.length_nil]
      omega
    · simp only [List.length_append, List.length_cons, List.length_nil]
      omega
  · simp only [WF, Vec.size, emplaceV]
    split_ifs with h1 h2
    · have := hgrow a.elems.length
      simp only [List.length_append, List.length_take, List.length_cons,
        List.length_drop]
      omega
    · simp only [List.length_append, List.length_take, List.length_cons,
        List.length_drop]
      omega
    · simp only [List.length_cons, List.length_nil]
      omega
  · simp only [WF, Vec.size, eraseV, List.length_append, List.length_take,
      List.length_drop]
    omega
  · simp only [WF, Vec.size, popBackV]
    split_ifs with h1
    · simp only [List.length_dropLast]
      omega
    · exact hwa

/-- Witness for the invariant theorem at concrete vectors `[3]` with
capacity 2 and `[4, 5, 6]` with capacity 3. -/
theorem public_ops_preserve_invariant_witness :
    (WF (Vec.mk ([3] : List Nat) 2) ∧ WF (Vec.mk ([4, 5, 6] : List Nat) 3)) ∧
    (WF (pushBackV (Vec.mk ([3] : List Nat) 2) 9) ∧
     WF (emplaceV (Vec.mk ([3] : List Nat) 2) 0 9).1 ∧
     WF (eraseV (Vec.mk ([3] : List Nat) 2) 0).1) := by
  have h := public_ops_preserve_invariant (Vec.mk ([3] : List Nat) 2)
    (Vec.mk ([4, 5, 6] : List Nat) 3) 5 0 0 9 0 (by decide) (by decide)
  obtain ⟨-, -, -, -, -, -, -, -, -, -, -, -, -, hp, he, her, -⟩ := h
  exact ⟨⟨by decide, by decide⟩, hp, he, her⟩

/-- C5: Reserve is a no-op when `new_capacity <= Capacity()` (for every
failure plan); otherwise a successful Reserve yields capacity exactly
`new_capacity` with the length and element order unchanged; under
nothrow-move transfer no failure is possible at all; and when the
copy transfer (selected because move may throw but copy is available)
throws, the original vector is untouched — all elements still live, same
length and capacity, nothing leaked. -/
theorem reserve_spec (v : Vec α) (newCapacity i : Nat) (ntMove copyC : Bool)
    (hi : i < v.size) :
    (newCapacity ≤ v.cap →
       ∀ ft, reserveGrow v newCapacity ntMove copyC ft = .ok v) ∧
    (v.cap < newCapacity →
       reserveGrow v newCapacity ntMove copyC none = .ok ⟨v.elems, newCapacity⟩) ∧
    (v.cap < newCapacity →
       ∀ ft, reserveGrow v newCapacity true copyC ft = .ok ⟨v.elems, newCapacity⟩) ∧
    (v.cap < newCapacity →
       reserveGrow v newCapacity false true (some i) =
         .error ⟨allLive v.elems, v.cap, [], 0⟩) := by
  have hi' : i < v.elems.length := hi
  refine ⟨?_, ?_, ?_, ?_⟩
  · intro h ft
    simp [reserveGrow, if_pos h]
  · intro h
    simp [reserveGrow, Nat.not_le.mpr h]
  · intro h ft
    cases ft <;> simp [reserveGrow, Nat.not_le.mpr h]
  · intro h
    simp [reserveGrow, Nat.not_le.mpr h, hi']

/-- Witness for the Reserve theorem: growing `[4, 6]` (capacity 2) to
capacity 5 with a throwing copy at element 1 leaves the original intact. -/
theorem reserve_spec_witness :
    1 < (Vec.mk ([4, 6] : List Nat) 2).size ∧
    reserveGrow (Vec.mk ([4, 6] : List Nat) 2) 5 false true (some 1) =
      .error ⟨allLive [4, 6], 2, [], 0⟩ := by
  have h := reserve_spec (Vec.mk ([4, 6] : List Nat) 2) 5 1 false true (by decide)
  exact ⟨by decide, h.2.2.2 (by decide)⟩

/-- C8: copy-assignment from `rhs` (non-self): when `rhs`'s length
exceeds the current capacity a full temporary copy is built and swapped
in — on a copy failure the destination is untouched; otherwise the
existing capacity is reused via `CopyAssignNoRealloc` (common prefix
overwritten, then surplus destroyed or suffix copy-constructed); in both
paths the final length equals `rhs`'s length and the contents equal
`rhs`'s contents element-wise. -/
theorem copy_assign_spec (dst rhs : Vec α) (k : Nat) (hk : k < rhs.size) :
    (rhs.size > dst.cap →
       copyAssignWithFail dst rhs none = .ok ⟨rhs.elems, rhs.size⟩ ∧
       copyAssignWithFail dst rhs (some k) = .error dst) ∧
    (rhs.size ≤ dst.cap →
       ∀ fc, copyAssignWithFail dst rhs fc = .ok ⟨rhs.elems, dst.cap⟩) ∧
    (vecCopyAssignOp dst rhs false).elems = rhs.elems ∧
    (vecCopyAssignOp dst rhs false).size = rhs.size := by
  have hk' : k < rhs.elems.length := hk
  refine ⟨?_, ?_, ?_, ?_⟩
  · intro h
    have h2 : rhs.elems.length > dst.cap := h
    exact ⟨by simp [copyAssignWithFail, h2, vecCopyCtor, Vec.size],
           by simp [copyAssignWithFail, h2, hk']⟩
  · intro h fc
    have h2 : ¬(rhs.elems.length > dst.cap) := Nat.not_lt.mpr h
    cases fc <;> simp [copyAssignWithFail, h2, copyAssignNoRealloc_spec]
  · show (if rhs.elems.length > dst.cap then vecCopyCtor rhs
          else copyAssignNoRealloc dst rhs).elems = rhs.elems
    split_ifs with h1 <;> simp [vecCopyCtor, copyAssignNoRealloc_spec]
  · show (if rhs.elems.length > dst.cap then vecCopyCtor rhs
          else copyAssignNoRealloc dst rhs).elems.length = rhs.elems.length
    split_ifs with h1 <;> simp [vecCopyCtor, copyAssignNoRealloc_spec]

/-- Witness for the copy-assignment theorem: assigning `[1, 2, 3]` (needs
reallocation) into `[9]` of capacity 1, including the failure case. -/
theorem copy_assign_spec_witness :
    0 < (Vec.mk ([1, 2, 3] : List Nat) 3).size ∧
    copyAssignWithFail (Vec.mk ([9] : List Nat) 1) (Vec.mk [1, 2, 3] 3) none =
      .ok ⟨[1, 2, 3], 3⟩ ∧
    copyAssignWithFail (Vec.mk ([9] : List Nat) 1) (Vec.mk [1, 2, 3] 3) (some 0) =
      .error (Vec.mk [9] 1) := by
  have h := copy_assign_spec (Vec.mk ([9] : List Nat) 1)
    (Vec.mk ([1, 2, 3] : List Nat) 3) 0 (by decide)
  exact ⟨by decide, (h.1 (by decide)).1, (h.1 (by decide)).2⟩

/-- C2 counterexample: for a move-only element type whose move
construction may throw (relocation therefore uses possibly-throwing
move), a relocation failure during EmplaceBack on the full vector
`[5, 7]` leaves the first element moved-from — the contents are not
exactly as before the call, refuting the unconditional strong
guarantee. -/
theorem emplaceBack_strong_guarantee_not_unconditional :
    emplaceBackGrow (Vec.mk ([5, 7] : List Nat) 2) 9 false false false (some 1) =
      .error ⟨[Cell.movedFrom, Cell.live 7], 2, [], 0⟩ ∧
    [Cell.movedFrom, Cell.live 7] ≠ allLive ([5, 7] : List Nat) := by
  exact ⟨rfl, by decide⟩

/-- C2 (amended): on EmplaceBack at full capacity the new element is
constructed into its final slot of the new block before any relocation —
if that construction throws, nothing else has been touched; if the
relocation then throws, the newly constructed element is destroyed,
nothing leaks, and length and capacity are exactly as before; the
contents too are exactly as before when relocation is by copy (move not
nothrow, copy available), and under nothrow move relocation cannot throw
at all; under possibly-throwing move relocation (copy unavailable) the
already-relocated elements are left moved-from (basic guarantee only). -/
theorem emplaceBack_grow_spec (v : Vec α) (x : α) (ntMove copyC : Bool)
    (i : Nat) (hi : i < v.size) :
    emplaceBackGrow v x ntMove copyC true none =
      .error ⟨allLive v.elems, v.cap, [], 0⟩ ∧
    emplaceBackGrow v x false true false (some i) =
      .error ⟨allLive v.elems, v.cap, [], 0⟩ ∧
    emplaceBackGrow v x false false false (some i) =
      .error ⟨movedOutUpTo i v.elems, v.cap, [], 0⟩ ∧
    (movedOutUpTo i v.elems).length = v.elems.length ∧
    (∀ fr, emplaceBackGrow v x true copyC false fr =
       .ok ⟨v.elems ++ [x], growCap v.size⟩) ∧
    emplaceBackGrow v x ntMove copyC false none =
      .ok ⟨v.elems ++ [x], growCap v.size⟩ := by
  have hi' : i < v.elems.length := hi
  refine ⟨rfl, ?_, ?_, ?_, ?_, ?_⟩
  · simp [emplaceBackGrow, hi']
  · simp [emplaceBackGrow, hi']
  · simp only [movedOutUpTo, List.length_append, List.length_map,
      List.length_take, List.length_drop]
    omega
  · intro fr
    cases fr <;> simp [emplaceBackGrow, Vec.size]
  · simp [emplaceBackGrow, Vec.size]

/-- Witness for the EmplaceBack theorem at the full vector `[4, 6]`
(capacity 2) with a copy-constructible element type. -/
theorem emplaceBack_grow_spec_witness :
    1 < (Vec.mk ([4, 6] : List Nat) 2).size ∧
    emplaceBackGrow (Vec.mk ([4, 6] : List Nat) 2) 9 false true false (some 1) =
      .error ⟨allLive [4, 6], 2, [], 0⟩ ∧
    emplaceBackGrow (Vec.mk ([4, 6] : List Nat) 2) 9 false true false none =
      .ok ⟨[4, 6, 9], 4⟩ := by
  have h := emplaceBack_grow_spec (Vec.mk ([4, 6] : List Nat) 2) 9 false true 1
    (by decide)
  refine ⟨by decide, h.2.1, ?_⟩
  have h6 := h.2.2.2.2.2
  simpa [growCap, Vec.size] using h6

/-- C1: the cleanup in the reallocating path of Emplace does not match
the claim; evaluations at failing inputs: a suffix-move failure leaves
the newly constructed element at slot `index` undestroyed (leak: the
catch destroys only slots below `index`); a failure while constructing
the new element leaves the already-moved prefix of the original array
moved-from, so the original is not intact; and a prefix-move failure
makes the catch destroy a slot that holds no object (double
destruction). -/
theorem emplace_grow_cleanup_defect :
    emplaceGrow (Vec.mk ([5] : List Nat) 1) 0 9 (some (.postMove 0)) =
      .error ⟨[Cell.live 5], 1, [(0, 9)], 0⟩ ∧
    emplaceGrow (Vec.mk ([5, 7] : List Nat) 2) 1 9 (some .newElem) =
      .error ⟨[Cell.movedFrom, Cell.live 7], 2, [], 0⟩ ∧
    emplaceGrow (Vec.mk ([5, 7] : List Nat) 2) 1 9 (some (.preMove 0)) =
      .error ⟨[Cell.live 5, Cell.live 7], 2, [], 1⟩ :=
  ⟨rfl, rfl, rfl⟩
